import Mathlib

/-!
Shallow embedding of the `nannys_recipes` repository
(`src/ocr_pipeline.py` and `src/build_html.py`), together with theorems
settling the behavioural claims about it.

Modelling conventions:
* Filesystem and external services are an explicit environment `Env`:
  `imgExists name` is `(IMAGES_DIR / name).exists()`, `decodeOk name`
  models whether `cv2.imread` succeeds on that image (on failure
  `preprocess_for_tesseract` returns `None` without writing the
  preprocessed file), `tessText` is `run_tesseract` on the preprocessed
  file (its exceptions are uncaught in the source, hence `Except`), and
  `vision` is `run_gpt4o_vision` over the list of existing image names
  (its exceptions are caught per recipe in the source).
* Writing a file is recorded as a `(path, content)` pair in an
  append-only list, in program order.
* Python strings are Lean `String`s; for the HTML-escaping development
  (`build_html.py`) they are `List Char`, which exposes the character
  structure that the escaping proofs need.
-/

/-- One entry of the audit file `image_audit.json`: `id`, `title`,
`type`, `best_images`, optional `notes` (`recipe.get("notes", "")` in
the source). -/
structure Recipe where
  id : String
  title : String
  rtype : String
  best_images : List String
  notes : Option String
  deriving Repr, DecidableEq

/-- The per-recipe result dict assembled by `run_pipeline`
(`ocr_pipeline.py` lines 247-255). -/
structure OcrResult where
  id : String
  title : String
  rtype : String
  source_images : List String
  tesseract_raw : String
  gpt4o_raw : String
  notes : String
  deriving Repr, DecidableEq

/-- Content of a written file: per-recipe outputs are plain text,
the combined output is the JSON dump of the result list. -/
inductive FileContent where
  | text (s : String)
  | json (rs : List OcrResult)
  deriving Repr, DecidableEq

/-- The environment of a run: which images exist, which decode, and the
two recognizers. -/
structure Env where
  imgExists : String → Bool
  decodeOk : String → Bool
  tessText : String → Except String String
  vision : List String → String → Except String String

/-- The page-break separator joining per-image Tesseract outputs
(`ocr_pipeline.py` line 274). -/
def pageBreakSep : String := "\n\n--- PAGE BREAK ---\n\n"

/-- Warning printed when a listed image is not on disk
(`ocr_pipeline.py` line 262). -/
def notFoundWarn (img : String) : String := "  [WARN] Image not found: " ++ img

/-- Warning printed by `preprocess_for_tesseract` when `cv2.imread`
fails (`ocr_pipeline.py` line 81). -/
def couldNotLoadWarn (img : String) : String := "  [WARN] Could not load: " ++ img

/-- The Tesseract half of the per-recipe loop (`ocr_pipeline.py`
lines 258-272): for each listed image, skip (with a warning) if it is
not on disk; otherwise preprocess it (which writes the preprocessed
file exactly when decoding succeeded, else warns) and, if the
preprocessed file exists, run Tesseract and collect its text.  Returns
the collected page texts and the warnings, in order; a Tesseract
exception propagates (it is not caught in the source). -/
def processImages (env : Env) (rid : String) : List String → Except String (List String × List String)
  | [] => .ok ([], [])
  | img :: rest =>
    if env.imgExists img then
      if env.decodeOk img then
        match env.tessText (rid ++ "_" ++ img) with
        | .error e => .error e
        | .ok t =>
          match processImages env rid rest with
          | .error e => .error e
          | .ok (ts, ws) => .ok (t :: ts, ws)
      else
        match processImages env rid rest with
        | .error e => .error e
        | .ok (ts, ws) => .ok (ts, couldNotLoadWarn img :: ws)
    else
      match processImages env rid rest with
      | .error e => .error e
      | .ok (ts, ws) => .ok (ts, notFoundWarn img :: ws)

/-- One iteration of the batch loop of `run_pipeline`
(`ocr_pipeline.py` lines 237-302): build the result dict, run the
Tesseract half, write the per-recipe Tesseract file, then — if any
listed image exists — call the vision model on the existing images;
on success record its text and write the per-recipe GPT-4o file, on
failure record `"ERROR: " ++ e` (and write no GPT-4o file).  Returns
the record, the files written, and the warnings printed. -/
def processRecipe (env : Env) (r : Recipe) : Except String (OcrResult × List (String × FileContent) × List String) :=
  match processImages env r.id r.best_images with
  | .error e => .error e
  | .ok (ts, ws) =>
    let tessRaw := String.intercalate pageBreakSep ts
    let rec0 : OcrResult :=
      { id := r.id, title := r.title, rtype := r.rtype,
        source_images := r.best_images,
        tesseract_raw := tessRaw, gpt4o_raw := "",
        notes := r.notes.getD "" }
    let files1 : List (String × FileContent) :=
      [("tesseract/" ++ r.id ++ ".txt", .text tessRaw)]
    let imagePaths := r.best_images.filter (fun n => env.imgExists n)
    if imagePaths.isEmpty then
      .ok (rec0, files1, ws)
    else
      match env.vision imagePaths r.rtype with
      | .ok t =>
        .ok ({ rec0 with gpt4o_raw := t },
             files1 ++ [("gpt4o/" ++ r.id ++ ".txt", .text t)], ws)
      | .error e =>
        .ok ({ rec0 with gpt4o_raw := "ERROR: " ++ e }, files1, ws)

/-- The batch loop of `run_pipeline` over the recipe list of the audit:
each recipe is processed in order and its record appended to
`all_results`; an uncaught exception aborts the whole run. -/
def runRecipes (env : Env) : List Recipe → Except String (List OcrResult × List (String × FileContent) × List String)
  | [] => .ok ([], [], [])
  | r :: rest =>
    match processRecipe env r with
    | .error e => .error e
    | .ok (rec, fs, ws) =>
      match runRecipes env rest with
      | .error e => .error e
      | .ok (recs, fs2, ws2) => .ok (rec :: recs, fs ++ fs2, ws ++ ws2)

/-- The full `run_pipeline` (`ocr_pipeline.py` lines 215-316): load the audit
(a load failure propagates and kills the process — nothing catches
it), run the batch loop, then dump `all_results` to the combined
results file. -/
def run_pipeline (audit : Except String (List Recipe)) (env : Env) :
    Except String (List OcrResult × List (String × FileContent) × List String) :=
  match audit with
  | .error e => .error e
  | .ok recipes =>
    match runRecipes env recipes with
    | .error e => .error e
    | .ok (recs, fs, ws) =>
      .ok (recs, fs ++ [("ocr_results_combined.json", .json recs)], ws)

/-!  Image preprocessing (`preprocess_for_tesseract`, lines 66-109).
Only the size behaviour is modelled (grayscale conversion, CLAHE,
thresholding and denoising never change the dimensions); `cv2.resize`
with scale factors `fx = fy = scale` produces an image of dimensions
`(round (h * scale), round (w * scale))`.  The scale is the exact
rational `1500 / max h w`, mirroring the Python float computation. -/

/-- The dimensions of the image produced by the resize step of
`preprocess_for_tesseract` (`ocr_pipeline.py` lines 87-91) from an
input of height `h` and width `w`. -/
def resizeDims (h w : ℕ) : ℕ × ℕ :=
  if max h w < 1500 then
    let scale : ℚ := 1500 / (max h w : ℚ)
    ((round ((h : ℚ) * scale)).toNat, (round ((w : ℚ) * scale)).toNat)
  else (h, w)

/-!  The vision-model prompt (`run_gpt4o_vision`, lines 135-209). -/

/-- The `type_guidance["typed"]` text (`ocr_pipeline.py` line 152). -/
def typedGuidance : String :=
  "This is a typewritten recipe, possibly with handwritten annotations in pen/pencil alongside the typed text."

/-- The `type_guidance["handwritten"]` text (`ocr_pipeline.py` line 153). -/
def handwrittenGuidance : String :=
  "This is a fully handwritten recipe in pen/pencil."

/-- The `type_guidance["mixed"]` text (`ocr_pipeline.py` line 154). -/
def mixedGuidance : String :=
  "This recipe has both typed/printed text and handwritten annotations overlaid on top."

/-- The `type_guidance` dict of `run_gpt4o_vision` as a keyed lookup
(`ocr_pipeline.py` lines 151-155). -/
def type_guidance (t : String) : Option String :=
  if t = "typed" then some typedGuidance
  else if t = "handwritten" then some handwrittenGuidance
  else if t = "mixed" then some mixedGuidance
  else none

/-- The lookup `type_guidance.get(recipe_type, type_guidance["handwritten"])`
(`ocr_pipeline.py` line 163): lookup with the handwritten text as the
fallback, never a `KeyError`. -/
def typeGuidanceGet (t : String) : String :=
  (type_guidance t).getD handwrittenGuidance

/-- The multi-page note (`ocr_pipeline.py` lines 157-159), empty for a
single image. -/
def pageNote (n : ℕ) : String :=
  if 1 < n then
    "\n\nThis recipe spans " ++ toString n ++ " pages/images. Please transcribe all pages in order as one continuous recipe."
  else ""

/-- The fixed tail of the prompt f-string (`ocr_pipeline.py`
lines 166-180). -/
def promptTail : String :=
  "Please transcribe the recipe EXACTLY as written, preserving:\n- The recipe title\n- All ingredients with their quantities and units\n- All method/cooking instructions\n- Any handwritten annotations or notes (mark these clearly as [Handwritten note: ...])\n- Any corrections or alternative quantities written alongside\n\nImportant details:\n- \"Zeera\" = cumin, \"Haldi\" = turmeric, \"Dhania\" = coriander — keep the original terms\n- Preserve fractions (½, ¼, etc.) as written\n- If text is unclear, use [unclear: best guess]\n- Maintain the original structure (title, ingredients list, method)\n- Do NOT add any interpretation or modernisation — transcribe faithfully\n\nOutput the transcription as plain text, preserving the recipe\x27s natural structure."

/-- The prompt `run_gpt4o_vision` sends, as a function of the number
`n` of page images and the classification `t` (`ocr_pipeline.py`
lines 161-180). -/
def visionPrompt (n : ℕ) (t : String) : String :=
  "You are a careful transcription assistant helping to preserve a grandmother\x27s handwritten curry recipe collection.\n\n"
  ++ typeGuidanceGet t ++ "\n" ++ pageNote n ++ "\n\n" ++ promptTail

/-!  `build_html.py`: Python string primitives on `List Char`. -/

/-- Python `str.replace(pat, rep)` on character lists: scan left to
right, replacing every (non-overlapping) occurrence of `pat`.  All
uses in this development have a non-empty `pat`. -/
def pyReplace (pat rep : List Char) : List Char → List Char
  | [] => []
  | c :: rest =>
    if pat.isPrefixOf (c :: rest) && !pat.isEmpty then
      rep ++ pyReplace pat rep (rest.drop (pat.length - 1))
    else
      c :: pyReplace pat rep rest
termination_by l => l.length
decreasing_by
  · simp only [List.length_cons, List.length_drop]; omega
  · simp only [List.length_cons]; omega

/-- Python `str.replace(pat, rep, n)`: replace only the first `n`
occurrences. -/
def pyReplaceN (pat rep : List Char) : ℕ → List Char → List Char
  | _, [] => []
  | n, c :: rest =>
    if n ≠ 0 ∧ (pat.isPrefixOf (c :: rest) && !pat.isEmpty) = true then
      rep ++ pyReplaceN pat rep (n - 1) (rest.drop (pat.length - 1))
    else
      c :: pyReplaceN pat rep n rest
termination_by _ l => l.length
decreasing_by
  · simp only [List.length_cons, List.length_drop]; omega
  · simp only [List.length_cons]; omega

/-- Python `str.count(pat)`: number of non-overlapping occurrences
of `pat`, scanning left to right. -/
def countSub (pat : List Char) : List Char → ℕ
  | [] => 0
  | c :: rest =>
    if pat.isPrefixOf (c :: rest) && !pat.isEmpty then
      countSub pat (rest.drop (pat.length - 1)) + 1
    else
      countSub pat rest
termination_by l => l.length
decreasing_by
  · simp only [List.length_cons, List.length_drop]; omega
  · simp only [List.length_cons]; omega

/-- Python `x in s` substring containment (for non-empty `x`): at
least one occurrence. -/
def containsSub (pat l : List Char) : Bool := countSub pat l != 0

/-- Python `str.strip(chars)`: drop the characters satisfying `p`
from both ends. -/
def pyStrip (p : Char → Bool) (l : List Char) : List Char :=
  ((l.dropWhile p).reverse.dropWhile p).reverse

/-- Python `ing.strip("- ")`, the stripping applied to subsection-header
lines (`build_html.py` lines 97 and 118). -/
def sectionStrip (l : List Char) : List Char :=
  pyStrip (fun c => c == '-' || c == ' ') l

/-!  `escape_html` (`build_html.py` lines 69-76). -/

/-- The function `escape_html`: the source chain of five `str.replace` calls, in
source order — ampersand first, then angle brackets, then the double
quote, then newline to a line break (`build_html.py` lines 69-76). -/
def escape_html (l : List Char) : List Char :=
  pyReplace ['\n'] "<br>".data
    (pyReplace ['"'] "&quot;".data
      (pyReplace ['>'] "&gt;".data
        (pyReplace ['<'] "&lt;".data
          (pyReplace ['&'] "&amp;".data l))))

/-- The per-character substitution that the replace chain of
`escape_html` amounts to (proved below): each source character is
escaped exactly once and earlier substitutions are never re-escaped
by later ones. -/
def escCh (c : Char) : List Char :=
  if c = '&' then "&amp;".data
  else if c = '<' then "&lt;".data
  else if c = '>' then "&gt;".data
  else if c = '"' then "&quot;".data
  else if c = '\n' then "<br>".data
  else [c]

/-- The conceptual unescaper of the round-trip property in the spec: greedy
left-to-right decoding of the five codes emitted by `escape_html`.
This is a verification artifact (the "conceptually unescaping" of the spec),
not source code; it witnesses that `escape_html` loses no
information. -/
def unescape : List Char → List Char
  | [] => []
  | c :: rest =>
    if c == '&' && "amp;".data.isPrefixOf rest then '&' :: unescape (rest.drop 4)
    else if c == '&' && "lt;".data.isPrefixOf rest then '<' :: unescape (rest.drop 3)
    else if c == '&' && "gt;".data.isPrefixOf rest then '>' :: unescape (rest.drop 3)
    else if c == '&' && "quot;".data.isPrefixOf rest then '"' :: unescape (rest.drop 5)
    else if c == '<' && "br>".data.isPrefixOf rest then '\n' :: unescape (rest.drop 3)
    else c :: unescape rest
termination_by l => l.length
decreasing_by
  all_goals simp only [List.length_cons, List.length_drop]
  all_goals omega

/-!  `build_recipe_card` (`build_html.py` lines 79-131): the ingredient
list items and the per-paragraph method rendering. -/

/-- The span opener whose presence triggers the closing-bracket
substitution (`build_html.py` lines 107 and 129). -/
def spanOpen : List Char := "<span class=\"handwritten-note\">".data

/-- The HTML fragment `build_recipe_card` appends for one ingredient
line (`build_html.py` lines 95-109).  Subsection-header lines
(`---X---`) are inserted stripped but NOT escaped; empty lines are
dropped; `Then add` lines and ordinary lines go through
`escape_html` (ordinary lines additionally get the handwritten-note
span markup). -/
def ingredientLi (ing : List Char) : List Char :=
  if "---".data.isPrefixOf ing && "---".data.isSuffixOf ing then
    "<li class=\"ingredient-section\">".data ++ sectionStrip ing ++ "</li>".data
  else if ing.isEmpty then []
  else if "Then add:".data.isPrefixOf ing || "Then add".data.isPrefixOf ing then
    "<li class=\"ingredient-instruction\">".data ++ escape_html ing ++ "</li>".data
  else
    let ih := escape_html ing
    let ih := pyReplace "[Handwritten:".data ("<span class=\"handwritten-note\">[Handwritten:").data ih
    let ih := pyReplace "[Handwritten note:".data ("<span class=\"handwritten-note\">[Note:").data ih
    let ih := if containsSub spanOpen ih then
        pyReplaceN "]".data "]</span>".data (countSub "<span".data ih) ih
      else ih
    "<li>".data ++ ih ++ "</li>".data

/-- The HTML fragment `build_recipe_card` appends for one method
paragraph (`build_html.py` lines 115-131).  Subsection-header
paragraphs (`---X---`) go through `escape_html`; dash-list paragraphs
become a `ul` of escaped items; other non-empty paragraphs become an
escaped `p` with the handwritten-note span markup. -/
def methodParaHtml (para0 : List Char) : List Char :=
  let para := pyStrip (fun c => c.isWhitespace) para0
  if "---".data.isPrefixOf para && "---".data.isSuffixOf para then
    "<h4 class=\"method-subsection\">".data ++ escape_html (sectionStrip para) ++ "</h4>".data
  else if "- ".data.isPrefixOf para then
    "<ul class=\x27method-list\x27>".data ++
      (para.splitOn '\n').flatMap (fun item =>
        "<li>".data ++ escape_html (item.dropWhile (fun c => c == '-' || c == ' ')) ++ "</li>".data) ++
      "</ul>".data
  else if para.isEmpty then []
  else
    let ph := escape_html para
    let ph := pyReplace "[Handwritten:".data ("<span class=\"handwritten-note\">[Handwritten:").data ph
    let ph := if containsSub spanOpen ph then
        pyReplaceN "]".data "]</span>".data (countSub "<span".data ph) ph
      else ph
    "<p>".data ++ ph ++ "</p>".data

/-!  ## Helper lemmas about the orchestrator -/

theorem processRecipe_eq_of_no_images (env : Env) (r : Recipe) (ts ws : List String)
    (hpi : processImages env r.id r.best_images = .ok (ts, ws))
    (hemp : (r.best_images.filter (fun n => env.imgExists n)).isEmpty = true) :
    processRecipe env r = .ok
      ({ id := r.id, title := r.title, rtype := r.rtype,
         source_images := r.best_images,
         tesseract_raw := String.intercalate pageBreakSep ts,
         gpt4o_raw := "", notes := r.notes.getD "" },
       [("tesseract/" ++ r.id ++ ".txt", .text (String.intercalate pageBreakSep ts))], ws) := by
  simp only [processRecipe, hpi, hemp, if_true]

theorem processRecipe_eq_of_vision_ok (env : Env) (r : Recipe) (ts ws : List String) (t : String)
    (hpi : processImages env r.id r.best_images = .ok (ts, ws))
    (hne : (r.best_images.filter (fun n => env.imgExists n)).isEmpty = false)
    (hv : env.vision (r.best_images.filter (fun n => env.imgExists n)) r.rtype = .ok t) :
    processRecipe env r = .ok
      ({ id := r.id, title := r.title, rtype := r.rtype,
         source_images := r.best_images,
         tesseract_raw := String.intercalate pageBreakSep ts,
         gpt4o_raw := t, notes := r.notes.getD "" },
       [("tesseract/" ++ r.id ++ ".txt", .text (String.intercalate pageBreakSep ts)),
        ("gpt4o/" ++ r.id ++ ".txt", .text t)], ws) := by
  simp only [processRecipe, hpi, hne, hv, Bool.false_eq_true, if_false]
  rfl

theorem processRecipe_eq_of_vision_error (env : Env) (r : Recipe) (ts ws : List String) (e : String)
    (hpi : processImages env r.id r.best_images = .ok (ts, ws))
    (hne : (r.best_images.filter (fun n => env.imgExists n)).isEmpty = false)
    (hv : env.vision (r.best_images.filter (fun n => env.imgExists n)) r.rtype = .error e) :
    processRecipe env r = .ok
      ({ id := r.id, title := r.title, rtype := r.rtype,
         source_images := r.best_images,
         tesseract_raw := String.intercalate pageBreakSep ts,
         gpt4o_raw := "ERROR: " ++ e, notes := r.notes.getD "" },
       [("tesseract/" ++ r.id ++ ".txt", .text (String.intercalate pageBreakSep ts))], ws) := by
  simp only [processRecipe, hpi, hne, hv, Bool.false_eq_true, if_false]

theorem processRecipe_fields (env : Env) (r : Recipe) (rec : OcrResult)
    (fs : List (String × FileContent)) (ws : List String)
    (h : processRecipe env r = .ok (rec, fs, ws)) :
    rec.id = r.id ∧ rec.title = r.title ∧ rec.rtype = r.rtype ∧
    rec.notes = r.notes.getD "" ∧ rec.source_images = r.best_images := by
  unfold processRecipe at h
  cases hpi : processImages env r.id r.best_images with
  | error e => rw [hpi] at h; exact absurd h (by simp)
  | ok p =>
    obtain ⟨ts, ws0⟩ := p
    rw [hpi] at h
    simp only at h
    split at h
    · simp only [Except.ok.injEq, Prod.mk.injEq] at h
      obtain ⟨hrec, -⟩ := h
      subst hrec
      exact ⟨rfl, rfl, rfl, rfl, rfl⟩
    · split at h
      all_goals
        simp only [Except.ok.injEq, Prod.mk.injEq] at h
      all_goals
        obtain ⟨hrec, -⟩ := h
      all_goals
        subst hrec
      all_goals
        exact ⟨rfl, rfl, rfl, rfl, rfl⟩

theorem runRecipes_ok_length (env : Env) :
    ∀ (rs : List Recipe) (recs : List OcrResult) (fs : List (String × FileContent)) (ws : List String),
      runRecipes env rs = .ok (recs, fs, ws) → recs.length = rs.length := by
  intro rs
  induction rs with
  | nil =>
    intro recs fs ws h
    simp only [runRecipes, Except.ok.injEq, Prod.mk.injEq] at h
    obtain ⟨h1, -⟩ := h
    subst h1
    rfl
  | cons r rest ih =>
    intro recs fs ws h
    simp only [runRecipes] at h
    cases hp : processRecipe env r with
    | error e => rw [hp] at h; exact absurd h (by simp)
    | ok p =>
      obtain ⟨rec, fs1, ws1⟩ := p
      rw [hp] at h
      cases hr : runRecipes env rest with
      | error e => rw [hr] at h; exact absurd h (by simp)
      | ok q =>
        obtain ⟨recs2, fs2, ws2⟩ := q
        rw [hr] at h
        simp only [Except.ok.injEq, Prod.mk.injEq] at h
        obtain ⟨h1, -⟩ := h
        subst h1
        simp [ih recs2 fs2 ws2 hr]

theorem runRecipes_ok_nth (env : Env) :
    ∀ (rs : List Recipe) (recs : List OcrResult) (fs : List (String × FileContent)) (ws : List String),
      runRecipes env rs = .ok (recs, fs, ws) →
      ∀ (i : ℕ) (r : Recipe), rs[i]? = some r →
        ∃ rec fs1 ws1, processRecipe env r = .ok (rec, fs1, ws1) ∧ recs[i]? = some rec := by
  intro rs
  induction rs with
  | nil =>
    intro recs fs ws h i r hi
    simp at hi
  | cons r0 rest ih =>
    intro recs fs ws h i r hi
    simp only [runRecipes] at h
    cases hp : processRecipe env r0 with
    | error e => rw [hp] at h; exact absurd h (by simp)
    | ok p =>
      obtain ⟨rec, fs1, ws1⟩ := p
      rw [hp] at h
      cases hr : runRecipes env rest with
      | error e => rw [hr] at h; exact absurd h (by simp)
      | ok q =>
        obtain ⟨recs2, fs2, ws2⟩ := q
        rw [hr] at h
        simp only [Except.ok.injEq, Prod.mk.injEq] at h
        obtain ⟨h1, -⟩ := h
        subst h1
        cases i with
        | zero =>
          simp only [List.getElem?_cons_zero, Option.some.injEq] at hi
          subst hi
          exact ⟨rec, fs1, ws1, hp, by simp⟩
        | succ n =>
          simp only [List.getElem?_cons_succ] at hi ⊢
          exact ih recs2 fs2 ws2 hr n r hi

/-!  ## Claim theorems (orchestrator) -/

/-- C1: if the vision-model call for a recipe fails, the field
`gpt4o_raw` is exactly the error marker `"ERROR: "` followed by the
exception text — in particular non-empty and beginning with the
marker — the batch loop continues with the remaining recipes exactly
as it otherwise would, and a completed run holds one record per
recipe including all subsequent ones. -/
theorem vision_error_marker_and_batch_continues (env : Env) (r : Recipe) (post : List Recipe)
    (ts ws : List String) (e : String)
    (htess : processImages env r.id r.best_images = .ok (ts, ws))
    (himgs : (r.best_images.filter (fun n => env.imgExists n)).isEmpty = false)
    (hvis : env.vision (r.best_images.filter (fun n => env.imgExists n)) r.rtype = .error e) :
    ∃ rec fs,
      processRecipe env r = .ok (rec, fs, ws) ∧
      rec.gpt4o_raw = "ERROR: " ++ e ∧
      rec.gpt4o_raw ≠ "" ∧
      "ERROR: ".data <+: rec.gpt4o_raw.data ∧
      (∀ recs2 fs2 ws2, runRecipes env post = .ok (recs2, fs2, ws2) →
          runRecipes env (r :: post) = .ok (rec :: recs2, fs ++ fs2, ws ++ ws2)) ∧
      (∀ recs fsAll wsAll, runRecipes env (r :: post) = .ok (recs, fsAll, wsAll) →
          recs.length = post.length + 1) := by
  refine ⟨_, _, processRecipe_eq_of_vision_error env r ts ws e htess himgs hvis, rfl, ?_, ?_, ?_, ?_⟩
  · intro hemp
    have hlen := congrArg String.length hemp
    rw [String.length_append] at hlen
    have h7 : ("ERROR: " : String).length = 7 := rfl
    have h0 : ("" : String).length = 0 := rfl
    rw [h7, h0] at hlen
    omega
  · show "ERROR: ".data <+: ("ERROR: " ++ e).data
    rw [String.data_append]
    exact ⟨e.data, rfl⟩
  · intro recs2 fs2 ws2 h2
    simp only [runRecipes, processRecipe_eq_of_vision_error env r ts ws e htess himgs hvis, h2]
  · intro recs fsAll wsAll hall
    rw [runRecipes_ok_length env (r :: post) recs fsAll wsAll hall]
    simp [Nat.add_comm]

/-- C1 witness: a concrete run where the vision call fails for the
only recipe; the record carries the error marker. -/
theorem vision_error_marker_witness :
    (processRecipe
        (⟨fun _ => true, fun _ => true, fun _ => .ok "T", fun _ _ => .error "boom"⟩ : Env)
        ⟨"r1", "Title", "typed", ["a.jpg"], none⟩).map (fun p => p.1.gpt4o_raw)
      = .ok ("ERROR: " ++ "boom") := by
  obtain ⟨rec, fs, h1, h2, -⟩ :=
    vision_error_marker_and_batch_continues
      (⟨fun _ => true, fun _ => true, fun _ => .ok "T", fun _ _ => .error "boom"⟩ : Env)
      ⟨"r1", "Title", "typed", ["a.jpg"], none⟩ [] ["T"] [] "boom" rfl rfl rfl
  rw [h1]
  simp [Except.map, h2]

/-- C2: a completed `run_pipeline` returns (and dumps to the combined
file) exactly one record per audit entry, in audit order, each
carrying the id, title, type and (defaulted) notes of that entry. -/
theorem run_pipeline_one_record_per_recipe (env : Env) (recipes : List Recipe)
    (recs : List OcrResult) (fs : List (String × FileContent)) (ws : List String)
    (h : run_pipeline (.ok recipes) env = .ok (recs, fs, ws)) :
    recs.length = recipes.length ∧
    (∀ (i : ℕ) (r : Recipe), recipes[i]? = some r →
        ∃ rec, recs[i]? = some rec ∧ rec.id = r.id ∧ rec.title = r.title ∧
          rec.rtype = r.rtype ∧ rec.notes = r.notes.getD "") ∧
    ("ocr_results_combined.json", FileContent.json recs) ∈ fs := by
  simp only [run_pipeline] at h
  cases hr : runRecipes env recipes with
  | error e => rw [hr] at h; exact absurd h (by simp)
  | ok q =>
    obtain ⟨recs0, fs0, ws0⟩ := q
    rw [hr] at h
    simp only [Except.ok.injEq, Prod.mk.injEq] at h
    obtain ⟨h1, h2, h3⟩ := h
    subst h1; subst h2; subst h3
    refine ⟨runRecipes_ok_length env recipes recs0 fs0 ws0 hr, ?_, by simp⟩
    intro i r hi
    obtain ⟨rec, fs1, ws1, hp, hrec⟩ := runRecipes_ok_nth env recipes recs0 fs0 ws0 hr i r hi
    obtain ⟨f1, f2, f3, f4, -⟩ := processRecipe_fields env r rec fs1 ws1 hp
    exact ⟨rec, hrec, f1, f2, f3, f4⟩

/-- C2 witness: a one-recipe audit (with its image missing) produces
exactly one record. -/
theorem run_pipeline_one_record_witness :
    ([({ id := "r1", title := "T1", rtype := "typed", source_images := ["x.jpg"],
         tesseract_raw := "", gpt4o_raw := "", notes := "" } : OcrResult)] : List OcrResult).length
      = ([(⟨"r1", "T1", "typed", ["x.jpg"], none⟩ : Recipe)] : List Recipe).length :=
  (run_pipeline_one_record_per_recipe
    (⟨fun _ => false, fun _ => false, fun _ => .ok "", fun _ _ => .ok ""⟩ : Env)
    [⟨"r1", "T1", "typed", ["x.jpg"], none⟩]
    [{ id := "r1", title := "T1", rtype := "typed", source_images := ["x.jpg"],
       tesseract_raw := "", gpt4o_raw := "", notes := "" }]
    [("tesseract/" ++ "r1" ++ ".txt", .text ""),
     ("ocr_results_combined.json",
      .json [{ id := "r1", title := "T1", rtype := "typed", source_images := ["x.jpg"],
               tesseract_raw := "", gpt4o_raw := "", notes := "" }])]
    [notFoundWarn "x.jpg"] (by rfl)).1

/-- C4 counterexample: for a recipe whose only listed image is missing
on disk, the `source_images` of the produced record is the full
`best_images` list, not its restriction to images existing on disk
(which is empty) — `run_pipeline` copies `best_images` verbatim
(`ocr_pipeline.py` line 251). -/
theorem source_images_not_restricted_counterexample :
    (processRecipe
        (⟨fun _ => false, fun _ => false, fun _ => .ok "", fun _ _ => .ok ""⟩ : Env)
        ⟨"r1", "T", "typed", ["missing.jpg"], none⟩).map (fun p => p.1.source_images)
      = .ok ["missing.jpg"] ∧
    (["missing.jpg"].filter
        (fun n => (⟨fun _ => false, fun _ => false, fun _ => .ok "", fun _ _ => .ok ""⟩ : Env).imgExists n))
      = [] ∧
    (["missing.jpg"] : List String) ≠ [] :=
  ⟨rfl, rfl, by decide⟩

/-- C4 amended: the `source_images` of every record equals the audit
entry `best_images` list verbatim (missing images included); the
restriction to existing images is applied only to the vision-call
input, not to the recorded list. -/
theorem source_images_eq_best_images (env : Env) (r : Recipe) (rec : OcrResult)
    (fs : List (String × FileContent)) (ws : List String)
    (h : processRecipe env r = .ok (rec, fs, ws)) :
    rec.source_images = r.best_images :=
  (processRecipe_fields env r rec fs ws h).2.2.2.2

/-- C4 witness: the amended statement at a concrete run. -/
theorem source_images_eq_best_images_witness :
    ({ id := "r1", title := "T", rtype := "typed", source_images := ["missing.jpg"],
       tesseract_raw := "", gpt4o_raw := "", notes := "" } : OcrResult).source_images
      = ["missing.jpg"] :=
  source_images_eq_best_images
    (⟨fun _ => false, fun _ => false, fun _ => .ok "", fun _ _ => .ok ""⟩ : Env)
    ⟨"r1", "T", "typed", ["missing.jpg"], none⟩
    { id := "r1", title := "T", rtype := "typed", source_images := ["missing.jpg"],
      tesseract_raw := "", gpt4o_raw := "", notes := "" }
    [("tesseract/" ++ "r1" ++ ".txt", .text "")]
    [notFoundWarn "missing.jpg"] (by rfl)

/-- C6 counterexample: a Tesseract error while processing an image
propagates out of the batch loop and aborts the whole run — it is not
caught in `run_pipeline` (`ocr_pipeline.py` line 270), contradicting
the claim that only an audit-load failure terminates the process. -/
theorem tesseract_error_aborts_batch_counterexample :
    runRecipes
        (⟨fun _ => true, fun _ => true, fun _ => .error "tess boom", fun _ _ => .ok "V"⟩ : Env)
        [⟨"r1", "T", "typed", ["a.jpg"], none⟩]
      = .error "tess boom" := rfl

/-- C6 amended: an audit-load failure aborts `run_pipeline`; so does a
Tesseract error raised while processing any image (it propagates out
of the batch loop uncaught); only a vision-call failure is
isolated per recipe. -/
theorem error_escalation_behaviour :
    (∀ (e : String) (env : Env), run_pipeline (.error e) env = .error e) ∧
    (∀ (env : Env) (r : Recipe) (rest : List Recipe) (e : String),
        processImages env r.id r.best_images = .error e →
        runRecipes env (r :: rest) = .error e) ∧
    (∀ (env : Env) (r : Recipe) (ts ws : List String) (e : String),
        processImages env r.id r.best_images = .ok (ts, ws) →
        env.vision (r.best_images.filter (fun n => env.imgExists n)) r.rtype = .error e →
        ∃ rec fs, processRecipe env r = .ok (rec, fs, ws)) := by
  refine ⟨fun e env => rfl, ?_, ?_⟩
  · intro env r rest e hpi
    simp only [runRecipes, processRecipe, hpi]
  · intro env r ts ws e hpi hv
    cases hemp : (r.best_images.filter (fun n => env.imgExists n)).isEmpty with
    | true => exact ⟨_, _, processRecipe_eq_of_no_images env r ts ws hpi hemp⟩
    | false => exact ⟨_, _, processRecipe_eq_of_vision_error env r ts ws e hpi hemp hv⟩

/-- C6 witness: the amended statement at concrete inputs — a failed
audit load aborts the run with the same error. -/
theorem error_escalation_behaviour_witness :
    run_pipeline (.error "no audit")
        (⟨fun _ => true, fun _ => true, fun _ => .ok "T", fun _ _ => .ok "V"⟩ : Env)
      = .error "no audit" :=
  error_escalation_behaviour.1 "no audit"
    (⟨fun _ => true, fun _ => true, fun _ => .ok "T", fun _ _ => .ok "V"⟩ : Env)

/-- C7 counterexample: a recipe whose vision call failed gets its
record marked `"ERROR: boom"`, but no per-recipe GPT-4o file is
written — the write sits inside the `try` after the call
(`ocr_pipeline.py` lines 290-293), so on failure only the Tesseract
file exists, contradicting the claim that both files are always
persisted. -/
theorem gpt4o_file_not_written_on_error_counterexample :
    (processRecipe
        (⟨fun _ => true, fun _ => true, fun _ => .ok "T", fun _ _ => .error "boom"⟩ : Env)
        ⟨"r1", "T", "typed", ["a.jpg"], none⟩).map (fun p => p.2.1.map Prod.fst)
      = .ok ["tesseract/r1.txt"] ∧
    ("gpt4o/r1.txt" : String) ∉ (["tesseract/r1.txt"] : List String) ∧
    (processRecipe
        (⟨fun _ => true, fun _ => true, fun _ => .ok "T", fun _ _ => .error "boom"⟩ : Env)
        ⟨"r1", "T", "typed", ["a.jpg"], none⟩).map (fun p => p.1.gpt4o_raw)
      = .ok "ERROR: boom" :=
  ⟨rfl, by decide, rfl⟩

/-- C7 amended: the Tesseract output is always persisted to its
per-recipe file before the record is appended; the vision output is
persisted to its per-recipe file only when the vision call happened
and succeeded — on vision failure, or when no listed image exists, no
GPT-4o file is written for that recipe. -/
theorem per_recipe_persistence (env : Env) (r : Recipe) (rec : OcrResult)
    (fs : List (String × FileContent)) (ws : List String)
    (h : processRecipe env r = .ok (rec, fs, ws)) :
    ("tesseract/" ++ r.id ++ ".txt", FileContent.text rec.tesseract_raw) ∈ fs ∧
    (∀ t, (r.best_images.filter (fun n => env.imgExists n)).isEmpty = false →
        env.vision (r.best_images.filter (fun n => env.imgExists n)) r.rtype = .ok t →
        ("gpt4o/" ++ r.id ++ ".txt", FileContent.text t) ∈ fs ∧ rec.gpt4o_raw = t) ∧
    (((r.best_images.filter (fun n => env.imgExists n)).isEmpty = true ∨
        (∃ e, env.vision (r.best_images.filter (fun n => env.imgExists n)) r.rtype = .error e)) →
        ∀ c, ("gpt4o/" ++ r.id ++ ".txt", c) ∉ fs) := by
  have hpath : ("gpt4o/" ++ r.id ++ ".txt") ≠ ("tesseract/" ++ r.id ++ ".txt") := by
    intro heq
    have hlen := congrArg String.length heq
    rw [String.length_append, String.length_append, String.length_append,
      String.length_append] at hlen
    have h6 : ("gpt4o/" : String).length = 6 := rfl
    have h10 : ("tesseract/" : String).length = 10 := rfl
    rw [h6, h10] at hlen
    omega
  cases hpi : processImages env r.id r.best_images with
  | error e =>
    rw [processRecipe, hpi] at h
    exact absurd h (by simp)
  | ok p =>
    obtain ⟨ts, ws0⟩ := p
    cases hemp : (r.best_images.filter (fun n => env.imgExists n)).isEmpty with
    | true =>
      rw [processRecipe_eq_of_no_images env r ts ws0 hpi hemp] at h
      simp only [Except.ok.injEq, Prod.mk.injEq] at h
      obtain ⟨h1, h2, h3⟩ := h
      subst h1; subst h2
      refine ⟨by simp, ?_, ?_⟩
      · intro t hne
        exact absurd hne (by simp)
      · intro _ c hc
        simp only [List.mem_singleton, Prod.mk.injEq] at hc
        exact hpath hc.1
    | false =>
      cases hv : env.vision (r.best_images.filter (fun n => env.imgExists n)) r.rtype with
      | ok t =>
        rw [processRecipe_eq_of_vision_ok env r ts ws0 t hpi hemp hv] at h
        simp only [Except.ok.injEq, Prod.mk.injEq] at h
        obtain ⟨h1, h2, h3⟩ := h
        subst h1; subst h2
        refine ⟨by simp, ?_, ?_⟩
        · intro t2 _ hv2
          simp only [Except.ok.injEq] at hv2
          subst hv2
          exact ⟨by simp, rfl⟩
        · intro hbad
          rcases hbad with hbad | ⟨e, hbad⟩
          · exact absurd hbad (by simp)
          · exact absurd hbad (by simp)
      | error e =>
        rw [processRecipe_eq_of_vision_error env r ts ws0 e hpi hemp hv] at h
        simp only [Except.ok.injEq, Prod.mk.injEq] at h
        obtain ⟨h1, h2, h3⟩ := h
        subst h1; subst h2
        refine ⟨by simp, ?_, ?_⟩
        · intro t2 _ hv2
          exact absurd hv2 (by simp)
        · intro _ c hc
          simp only [List.mem_singleton, Prod.mk.injEq] at hc
          exact hpath hc.1

/-- C7 witness: the amended statement at a concrete run with a failing
vision call — the Tesseract file is among the written files. -/
theorem per_recipe_persistence_witness :
    ("tesseract/" ++ "r1" ++ ".txt", FileContent.text "T1")
      ∈ ([("tesseract/" ++ "r1" ++ ".txt", FileContent.text "T1")] : List (String × FileContent)) :=
  (per_recipe_persistence
    (⟨fun _ => true, fun _ => true, fun _ => .ok "T1", fun _ _ => .error "boom"⟩ : Env)
    ⟨"r1", "T", "typed", ["a.jpg"], none⟩
    { id := "r1", title := "T", rtype := "typed", source_images := ["a.jpg"],
      tesseract_raw := "T1", gpt4o_raw := "ERROR: boom", notes := "" }
    [("tesseract/" ++ "r1" ++ ".txt", FileContent.text "T1")]
    [] (by rfl)).1

theorem processImages_ok_spec (env : Env) (rid : String) :
    ∀ (imgs ts ws : List String),
      processImages env rid imgs = .ok (ts, ws) →
      ts = (imgs.filter (fun i => env.imgExists i && env.decodeOk i)).map
            (fun i => ((env.tessText (rid ++ "_" ++ i)).toOption).getD "") ∧
      (∀ i ∈ imgs.filter (fun i => env.imgExists i && env.decodeOk i),
          ∃ t, env.tessText (rid ++ "_" ++ i) = .ok t) ∧
      ws = imgs.filterMap (fun i =>
            if env.imgExists i then
              if env.decodeOk i then none else some (couldNotLoadWarn i)
            else some (notFoundWarn i)) := by
  intro imgs
  induction imgs with
  | nil =>
    intro ts ws h
    simp only [processImages, Except.ok.injEq, Prod.mk.injEq] at h
    obtain ⟨h1, h2⟩ := h
    subst h1; subst h2
    simp
  | cons img rest ih =>
    intro ts ws h
    simp only [processImages] at h
    cases hex : env.imgExists img with
    | true =>
      rw [hex] at h
      simp only [if_true] at h
      cases hdec : env.decodeOk img with
      | true =>
        rw [hdec] at h
        simp only [if_true] at h
        cases ht : env.tessText (rid ++ "_" ++ img) with
        | error e => rw [ht] at h; exact absurd h (by simp)
        | ok t =>
          rw [ht] at h
          cases hr : processImages env rid rest with
          | error e => rw [hr] at h; exact absurd h (by simp)
          | ok q =>
            obtain ⟨ts0, ws0⟩ := q
            rw [hr] at h
            simp only [Except.ok.injEq, Prod.mk.injEq] at h
            obtain ⟨h1, h2⟩ := h
            subst h1; subst h2
            obtain ⟨g1, g2, g3⟩ := ih ts0 ws0 hr
            refine ⟨?_, ?_, ?_⟩
            · simp only [List.filter_cons, hex, hdec, Bool.and_self, if_true, List.map_cons,
                ht, Except.toOption, Option.getD_some]
              exact congrArg _ g1
            · intro i hi
              simp only [List.filter_cons, hex, hdec, Bool.and_self, if_true,
                List.mem_cons] at hi
              rcases hi with hi | hi
              · subst hi; exact ⟨t, ht⟩
              · exact g2 i hi
            · simp only [List.filterMap_cons, hex, hdec, if_true]
              exact g3
      | false =>
        rw [hdec] at h
        simp only [Bool.false_eq_true, if_false] at h
        cases hr : processImages env rid rest with
        | error e => rw [hr] at h; exact absurd h (by simp)
        | ok q =>
          obtain ⟨ts0, ws0⟩ := q
          rw [hr] at h
          simp only [Except.ok.injEq, Prod.mk.injEq] at h
          obtain ⟨h1, h2⟩ := h
          subst h1; subst h2
          obtain ⟨g1, g2, g3⟩ := ih ts0 ws0 hr
          refine ⟨?_, ?_, ?_⟩
          · simpa only [List.filter_cons, hex, hdec, Bool.and_false, Bool.false_eq_true,
              if_false] using g1
          · intro i hi
            simp only [List.filter_cons, hex, hdec, Bool.and_false, Bool.false_eq_true,
              if_false] at hi
            exact g2 i hi
          · simp only [List.filterMap_cons, hex, hdec, Bool.false_eq_true, if_false, if_true]
            exact congrArg _ g3
    | false =>
      rw [hex] at h
      simp only [Bool.false_eq_true, if_false] at h
      cases hr : processImages env rid rest with
      | error e => rw [hr] at h; exact absurd h (by simp)
      | ok q =>
        obtain ⟨ts0, ws0⟩ := q
        rw [hr] at h
        simp only [Except.ok.injEq, Prod.mk.injEq] at h
        obtain ⟨h1, h2⟩ := h
        subst h1; subst h2
        obtain ⟨g1, g2, g3⟩ := ih ts0 ws0 hr
        refine ⟨?_, ?_, ?_⟩
        · simpa only [List.filter_cons, hex, Bool.false_and, Bool.false_eq_true,
            if_false] using g1
        · intro i hi
          simp only [List.filter_cons, hex, Bool.false_and, Bool.false_eq_true,
            if_false] at hi
          exact g2 i hi
        · simp only [List.filterMap_cons, hex, Bool.false_eq_true, if_false]
          exact congrArg _ g3

theorem processRecipe_tessraw (env : Env) (r : Recipe) (rec : OcrResult)
    (fs : List (String × FileContent)) (ws : List String)
    (h : processRecipe env r = .ok (rec, fs, ws)) :
    ∃ ts, processImages env r.id r.best_images = .ok (ts, ws) ∧
      rec.tesseract_raw = String.intercalate pageBreakSep ts := by
  cases hpi : processImages env r.id r.best_images with
  | error e =>
    rw [processRecipe, hpi] at h
    exact absurd h (by simp)
  | ok p =>
    obtain ⟨ts, ws0⟩ := p
    cases hemp : (r.best_images.filter (fun n => env.imgExists n)).isEmpty with
    | true =>
      rw [processRecipe_eq_of_no_images env r ts ws0 hpi hemp] at h
      simp only [Except.ok.injEq, Prod.mk.injEq] at h
      obtain ⟨h1, -, h3⟩ := h
      subst h1; subst h3
      exact ⟨ts, rfl, rfl⟩
    | false =>
      cases hv : env.vision (r.best_images.filter (fun n => env.imgExists n)) r.rtype with
      | ok t =>
        rw [processRecipe_eq_of_vision_ok env r ts ws0 t hpi hemp hv] at h
        simp only [Except.ok.injEq, Prod.mk.injEq] at h
        obtain ⟨h1, -, h3⟩ := h
        subst h1; subst h3
        exact ⟨ts, rfl, rfl⟩
      | error e =>
        rw [processRecipe_eq_of_vision_error env r ts ws0 e hpi hemp hv] at h
        simp only [Except.ok.injEq, Prod.mk.injEq] at h
        obtain ⟨h1, -, h3⟩ := h
        subst h1; subst h3
        exact ⟨ts, rfl, rfl⟩

/-- C3 counterexample: a recipe whose single listed image EXISTS on
disk (so N = 1, M = 0) but fails to decode in preprocessing: the
Tesseract engine would return `"X"` for it, yet `tesseract_raw` is
`""`, not the one page text the claim demands — the page count is
images that exist AND decode, not images that exist. -/
theorem tesseract_pages_counterexample :
    (processRecipe
        (⟨fun _ => true, fun _ => false, fun _ => .ok "X", fun _ _ => .ok "V"⟩ : Env)
        ⟨"r1", "T", "typed", ["a.jpg"], none⟩).map (fun p => p.1.tesseract_raw)
      = .ok "" ∧
    (⟨fun _ => true, fun _ => false, fun _ => .ok "X", fun _ _ => .ok "V"⟩ : Env).imgExists "a.jpg"
      = true ∧
    (⟨fun _ => true, fun _ => false, fun _ => .ok "X", fun _ _ => .ok "V"⟩ : Env).tessText
        ("r1" ++ "_" ++ "a.jpg")
      = .ok "X" ∧
    ("" : String) ≠ "X" :=
  ⟨rfl, rfl, rfl, by decide⟩

/-- C3 amended: `tesseract_raw` is exactly the page texts of the
listed images that exist on disk AND decode successfully, joined in
list order by the page-break separator (so no separator for zero or
one page); the warnings are, in order, one not-found warning per
missing image and one could-not-load warning per existing image that
fails to decode — in particular every missing image gets its
not-found warning. -/
theorem tesseract_pages_and_warnings (env : Env) (r : Recipe) (rec : OcrResult)
    (fs : List (String × FileContent)) (ws : List String)
    (h : processRecipe env r = .ok (rec, fs, ws)) :
    rec.tesseract_raw = String.intercalate pageBreakSep
        ((r.best_images.filter (fun i => env.imgExists i && env.decodeOk i)).map
          (fun i => ((env.tessText (r.id ++ "_" ++ i)).toOption).getD "")) ∧
    (∀ i ∈ r.best_images.filter (fun i => env.imgExists i && env.decodeOk i),
        ∃ t, env.tessText (r.id ++ "_" ++ i) = .ok t) ∧
    ws = r.best_images.filterMap (fun i =>
          if env.imgExists i then
            if env.decodeOk i then none else some (couldNotLoadWarn i)
          else some (notFoundWarn i)) ∧
    (∀ i ∈ r.best_images, env.imgExists i = false → notFoundWarn i ∈ ws) := by
  obtain ⟨ts, hpi, hraw⟩ := processRecipe_tessraw env r rec fs ws h
  obtain ⟨g1, g2, g3⟩ := processImages_ok_spec env r.id r.best_images ts ws hpi
  refine ⟨by rw [hraw, g1], g2, g3, ?_⟩
  intro i hi hex
  rw [g3, List.mem_filterMap]
  exact ⟨i, hi, by simp [hex]⟩

/-- C3 witness: one existing-and-decoding image plus one missing
image — a single page segment with no separator. -/
theorem tesseract_pages_witness :
    ("X" : String) = String.intercalate pageBreakSep ["X"] :=
  (tesseract_pages_and_warnings
    (⟨fun n => n == "a.jpg", fun _ => true, fun _ => .ok "X", fun _ _ => .ok "V"⟩ : Env)
    ⟨"r1", "T", "typed", ["a.jpg", "b.jpg"], none⟩
    { id := "r1", title := "T", rtype := "typed", source_images := ["a.jpg", "b.jpg"],
      tesseract_raw := "X", gpt4o_raw := "V", notes := "" }
    [("tesseract/" ++ "r1" ++ ".txt", .text "X"), ("gpt4o/" ++ "r1" ++ ".txt", .text "V")]
    [notFoundWarn "b.jpg"] (by rfl)).1

/-- C5: for a successfully decoded (hence non-degenerate) input, if
the larger dimension is below 1500 the isotropic upscale makes the
larger output dimension exactly 1500; otherwise the dimensions are
unchanged. -/
theorem preprocess_resize_dims (h w : ℕ) (hh : 0 < h) (hw : 0 < w) :
    (max h w < 1500 → max (resizeDims h w).1 (resizeDims h w).2 = 1500) ∧
    (1500 ≤ max h w → resizeDims h w = (h, w)) := by
  constructor
  · intro hlt
    simp only [resizeDims, if_pos hlt]
    rcases le_total h w with hle | hle
    · have hmax : ((h : ℚ) ⊔ (w : ℚ)) = (w : ℚ) :=
        max_eq_right (by exact_mod_cast hle)
      rw [hmax]
      have hwQ : ((w : ℚ)) ≠ 0 := Nat.cast_ne_zero.mpr hw.ne'
      have hkey : ((w : ℚ)) * (1500 / (w : ℚ)) = 1500 := by field_simp
      have hround2 : round ((w : ℚ) * (1500 / (w : ℚ))) = 1500 := by
        rw [hkey]; norm_num
      have hle2 : ((h : ℚ)) * (1500 / (w : ℚ)) ≤ 1500 := by
        calc ((h : ℚ)) * (1500 / (w : ℚ)) ≤ ((w : ℚ)) * (1500 / (w : ℚ)) := by
              apply mul_le_mul_of_nonneg_right
              · exact_mod_cast hle
              · positivity
          _ = 1500 := hkey
      have hround1 : round ((h : ℚ) * (1500 / (w : ℚ))) ≤ 1500 := by
        rw [← hround2, round_eq, round_eq]
        exact Int.floor_le_floor (by linarith)
      rw [hround2]
      have htn : ((1500 : ℤ)).toNat = 1500 := rfl
      rw [htn]
      have h1n : (round ((h : ℚ) * (1500 / (w : ℚ)))).toNat ≤ 1500 := by
        have := Int.toNat_le_toNat hround1
        simpa using this
      exact max_eq_right h1n
    · have hmax : ((h : ℚ) ⊔ (w : ℚ)) = (h : ℚ) :=
        max_eq_left (by exact_mod_cast hle)
      rw [hmax]
      have hhQ : ((h : ℚ)) ≠ 0 := Nat.cast_ne_zero.mpr hh.ne'
      have hkey : ((h : ℚ)) * (1500 / (h : ℚ)) = 1500 := by field_simp
      have hround2 : round ((h : ℚ) * (1500 / (h : ℚ))) = 1500 := by
        rw [hkey]; norm_num
      have hle2 : ((w : ℚ)) * (1500 / (h : ℚ)) ≤ 1500 := by
        calc ((w : ℚ)) * (1500 / (h : ℚ)) ≤ ((h : ℚ)) * (1500 / (h : ℚ)) := by
              apply mul_le_mul_of_nonneg_right
              · exact_mod_cast hle
              · positivity
          _ = 1500 := hkey
      have hround1 : round ((w : ℚ) * (1500 / (h : ℚ))) ≤ 1500 := by
        rw [← hround2, round_eq, round_eq]
        exact Int.floor_le_floor (by linarith)
      rw [hround2]
      have htn : ((1500 : ℤ)).toNat = 1500 := rfl
      rw [htn]
      have h1n : (round ((w : ℚ) * (1500 / (h : ℚ)))).toNat ≤ 1500 := by
        have := Int.toNat_le_toNat hround1
        simpa using this
      exact max_eq_left h1n
  · intro hge
    simp only [resizeDims, if_neg (not_lt.mpr hge)]

/-- C5 witness: a 2×3 input is upscaled so its larger dimension is
exactly 1500; a large input is a fixpoint. -/
theorem preprocess_resize_dims_witness :
    (0 : ℕ) < 2 ∧ (0 : ℕ) < 3 ∧
    (max 2 3 < 1500 → max (resizeDims 2 3).1 (resizeDims 2 3).2 = 1500) ∧
    (1500 ≤ max 2 3 → resizeDims 2 3 = (2, 3)) :=
  ⟨by decide, by decide, preprocess_resize_dims 2 3 (by decide) (by decide)⟩

/-- C10: `run_gpt4o_vision` never raises a lookup error on an unknown
classification — for any string outside typed/handwritten/mixed, the
`dict.get` fallback selects the handwritten guidance, and the whole
prompt equals the prompt built for "handwritten". -/
theorem vision_prompt_guidance_fallback (t : String)
    (h1 : t ≠ "typed") (h2 : t ≠ "handwritten") (h3 : t ≠ "mixed") :
    typeGuidanceGet t = handwrittenGuidance ∧
    ∀ n, visionPrompt n t = visionPrompt n "handwritten" := by
  have hg : typeGuidanceGet t = handwrittenGuidance := by
    simp [typeGuidanceGet, type_guidance, h1, h2, h3]
  have hh : typeGuidanceGet "handwritten" = handwrittenGuidance := rfl
  exact ⟨hg, fun n => by rw [visionPrompt, visionPrompt, hg, hh]⟩

/-- C10 witness: the fallback at the concrete unknown classification
"unknown". -/
theorem vision_prompt_guidance_fallback_witness :
    typeGuidanceGet "unknown" = handwrittenGuidance :=
  (vision_prompt_guidance_fallback "unknown" (by decide) (by decide) (by decide)).1

/-!  ## The escaping development (`escape_html`) -/

theorem pyReplace_singleton (p : Char) (rep : List Char) :
    ∀ l : List Char, pyReplace [p] rep l = l.flatMap (fun c => if c = p then rep else [c]) := by
  intro l
  induction l with
  | nil => simp [pyReplace]
  | cons c rest ih =>
    by_cases h : c = p
    · subst h
      rw [pyReplace]
      simp [List.isPrefixOf, ih]
    · rw [pyReplace]
      simp [List.isPrefixOf, h, ih, Ne.symm h]

theorem escape_html_eq_flatMap (l : List Char) : escape_html l = l.flatMap escCh := by
  simp only [escape_html, pyReplace_singleton]
  simp only [List.flatMap_assoc]
  congr 1
  funext c
  by_cases h1 : c = '&'
  · subst h1; decide
  by_cases h2 : c = '<'
  · subst h2; decide
  by_cases h3 : c = '>'
  · subst h3; decide
  by_cases h4 : c = '"'
  · subst h4; decide
  by_cases h5 : c = '\n'
  · subst h5; decide
  simp [escCh, h1, h2, h3, h4, h5]

theorem unescape_amp (l : List Char) :
    unescape ('&' :: 'a' :: 'm' :: 'p' :: ';' :: l) = '&' :: unescape l := by
  rw [unescape]
  simp +decide [List.isPrefixOf]

theorem unescape_lt (l : List Char) :
    unescape ('&' :: 'l' :: 't' :: ';' :: l) = '<' :: unescape l := by
  rw [unescape]
  simp +decide [List.isPrefixOf]

theorem unescape_gt (l : List Char) :
    unescape ('&' :: 'g' :: 't' :: ';' :: l) = '>' :: unescape l := by
  rw [unescape]
  simp +decide [List.isPrefixOf]

theorem unescape_quot (l : List Char) :
    unescape ('&' :: 'q' :: 'u' :: 'o' :: 't' :: ';' :: l) = '"' :: unescape l := by
  rw [unescape]
  simp +decide [List.isPrefixOf]

theorem unescape_br (l : List Char) :
    unescape ('<' :: 'b' :: 'r' :: '>' :: l) = '\n' :: unescape l := by
  rw [unescape]
  simp +decide [List.isPrefixOf]

theorem unescape_other (c : Char) (l : List Char) (h1 : c ≠ '&') (h2 : c ≠ '<') :
    unescape (c :: l) = c :: unescape l := by
  rw [unescape]
  simp [h1, h2]

theorem unescape_escCh_append (c : Char) (l : List Char) :
    unescape (escCh c ++ l) = c :: unescape l := by
  by_cases h1 : c = '&'
  · subst h1; exact unescape_amp l
  by_cases h2 : c = '<'
  · subst h2; exact unescape_lt l
  by_cases h3 : c = '>'
  · subst h3; exact unescape_gt l
  by_cases h4 : c = '"'
  · subst h4; exact unescape_quot l
  by_cases h5 : c = '\n'
  · subst h5; exact unescape_br l
  have he : escCh c = [c] := by simp [escCh, h1, h2, h3, h4, h5]
  rw [he, List.singleton_append]
  exact unescape_other c l h1 h2

theorem unescape_escape_html (l : List Char) : unescape (escape_html l) = l := by
  rw [escape_html_eq_flatMap]
  induction l with
  | nil => simp [unescape]
  | cons c rest ih =>
    rw [List.flatMap_cons, unescape_escCh_append, ih]

theorem quot_not_mem_escCh (c : Char) : '"' ∉ escCh c := by
  unfold escCh
  split_ifs with h1 h2 h3 h4 h5
  · decide
  · decide
  · decide
  · decide
  · decide
  · intro hm
    rw [List.mem_singleton] at hm
    exact h4 hm.symm

theorem lt_mem_escCh (c : Char) : '<' ∈ escCh c ↔ c = '\n' := by
  unfold escCh
  split_ifs with h1 h2 h3 h4 h5
  · subst h1; decide
  · subst h2; decide
  · subst h3; decide
  · subst h4; decide
  · subst h5; decide
  · rw [List.mem_singleton]
    constructor
    · intro hm; exact absurd hm.symm h2
    · intro hm; exact absurd hm h5

theorem gt_mem_escCh (c : Char) : '>' ∈ escCh c ↔ c = '\n' := by
  unfold escCh
  split_ifs with h1 h2 h3 h4 h5
  · subst h1; decide
  · subst h2; decide
  · subst h3; decide
  · subst h4; decide
  · subst h5; decide
  · rw [List.mem_singleton]
    constructor
    · intro hm; exact absurd hm.symm h3
    · intro hm; exact absurd hm h5

/-- C9: the five `replace` calls of `escape_html`, in their source
order, amount to a single per-character substitution (so no output of
an earlier substitution is ever re-escaped by a later one); the
function is injective — the greedy decoder `unescape` recovers every
input exactly, including titles holding ampersands, angle brackets,
quotes and embedded newlines; and the output carries no unescaped
metacharacters: never a raw quote, and raw angle brackets occur iff
the input had a newline (they belong to the emitted `<br>` tags). -/
theorem escape_html_order_roundtrip_safety :
    (∀ l : List Char, escape_html l = l.flatMap escCh) ∧
    (∀ l : List Char, unescape (escape_html l) = l) ∧
    Function.Injective escape_html ∧
    (∀ l : List Char, '"' ∉ escape_html l) ∧
    (∀ l : List Char, ('<' ∈ escape_html l ∨ '>' ∈ escape_html l) ↔ '\n' ∈ l) := by
  refine ⟨escape_html_eq_flatMap, unescape_escape_html,
    Function.LeftInverse.injective unescape_escape_html, ?_, ?_⟩
  · intro l hm
    rw [escape_html_eq_flatMap, List.mem_flatMap] at hm
    obtain ⟨c, -, hc⟩ := hm
    exact quot_not_mem_escCh c hc
  · intro l
    constructor
    · rintro (hm | hm) <;> rw [escape_html_eq_flatMap, List.mem_flatMap] at hm
      · obtain ⟨c, hcl, hc⟩ := hm
        rw [lt_mem_escCh] at hc
        subst hc
        exact hcl
      · obtain ⟨c, hcl, hc⟩ := hm
        rw [gt_mem_escCh] at hc
        subst hc
        exact hcl
    · intro hm
      left
      rw [escape_html_eq_flatMap, List.mem_flatMap]
      exact ⟨'\n', hm, by decide⟩

/-- C9 witness: the round trip at a concrete title containing all
five special characters. -/
theorem escape_html_roundtrip_witness :
    unescape (escape_html ("a\"<b>\n&c".data)) = "a\"<b>\n&c".data :=
  escape_html_order_roundtrip_safety.2.1 ("a\"<b>\n&c".data)

/-- C8 counterexample: the ingredient line `---A<B---` renders as a
subsection header whose inner text `A<B` is inserted WITHOUT passing
through `escape_html` (`build_html.py` line 98) — the raw `<` stays
in the document, and the output differs from the escaped rendering
the claim demands. -/
theorem ingredient_section_unescaped_counterexample :
    ingredientLi ("---A<B---".data)
      = "<li class=\"ingredient-section\">".data ++ "A<B".data ++ "</li>".data ∧
    sectionStrip ("---A<B---".data) = "A<B".data ∧
    escape_html ("A<B".data) = "A&lt;B".data ∧
    ingredientLi ("---A<B---".data)
      ≠ "<li class=\"ingredient-section\">".data
          ++ escape_html ("A<B".data) ++ "</li>".data := by
  refine ⟨by decide, by decide, ?_, ?_⟩
  · rw [escape_html_eq_flatMap]
    decide
  · rw [escape_html_eq_flatMap]
    decide

/-- C8 amended: `build_recipe_card` escapes its free text EXCEPT
ingredient subsection headers: an ingredient line `---X---` is
inserted as `X` (stripped of surrounding hyphens and spaces) with no
escaping — so whenever stripping and escaping disagree on it, the
rendered header differs from the escaped rendering; method subsection
headers, by contrast, do go through `escape_html`. -/
theorem ingredient_section_header_not_escaped (ing : List Char)
    (hsec : ("---".data.isPrefixOf ing && "---".data.isSuffixOf ing) = true) :
    ingredientLi ing
      = "<li class=\"ingredient-section\">".data ++ sectionStrip ing ++ "</li>".data ∧
    (sectionStrip ing ≠ escape_html (sectionStrip ing) →
        ingredientLi ing ≠ "<li class=\"ingredient-section\">".data
          ++ escape_html (sectionStrip ing) ++ "</li>".data) ∧
    (∀ para, ("---".data.isPrefixOf (pyStrip (fun c => c.isWhitespace) para)
          && "---".data.isSuffixOf (pyStrip (fun c => c.isWhitespace) para)) = true →
        methodParaHtml para = "<h4 class=\"method-subsection\">".data
          ++ escape_html (sectionStrip (pyStrip (fun c => c.isWhitespace) para))
          ++ "</h4>".data) := by
  have h1 : ingredientLi ing
      = "<li class=\"ingredient-section\">".data ++ sectionStrip ing ++ "</li>".data := by
    simp only [ingredientLi, hsec, if_true]
  refine ⟨h1, ?_, ?_⟩
  · intro hne heq
    rw [h1] at heq
    exact hne (List.append_cancel_left (List.append_cancel_right heq))
  · intro para hp
    simp only [methodParaHtml, hp, if_true]

/-- C8 witness: a concrete subsection-header ingredient line. -/
theorem ingredient_section_header_witness :
    ingredientLi ("---Spices---".data)
      = "<li class=\"ingredient-section\">".data
          ++ sectionStrip ("---Spices---".data) ++ "</li>".data :=
  (ingredient_section_header_not_escaped ("---Spices---".data) (by decide)).1
